import Mathlib

/-!
# AudioCinemaApp — verification of the analyzer core

Shallow embedding of the audio comparison/analysis engine of the
AudioCinemaApp repository (the `analyzer.py` files of the `week5_v4`,
`week5_v3`, `week4_v2` and root `src` variants), together with proofs of
the spec's claims about it.

Conventions of the embedding:
* Python floats are modelled as exact numbers: sample buffers, frequency
  axes and thresholds live in `ℚ`; quantities produced by transcendental
  functions (`log10`, `sqrt`, `cos`, `sin`, `π`) live in `ℝ`.
* `numpy` arrays are Lean lists; `ndarray.astype(int)` is truncation
  toward zero; Python `round` is round-half-to-even; Python `//` on
  possibly negative integers is flooring division (`Int.fdiv`).
* fallible numpy operations (the broadcasting assignment in
  `week5_v4._frame_signal`) are modelled with `Except`.
-/

namespace AudioCinema

/-- Python `round` (and `np.round` on a `.0`-free value): round half to even. -/
def pyRound (q : ℚ) : ℤ :=
  let fl := ⌊q⌋
  let r := q - fl
  if r < 1/2 then fl
  else if 1/2 < r then fl + 1
  else if 2 ∣ fl then fl else fl + 1

/-- Python `int(...)` / `ndarray.astype(int)`: truncation toward zero. -/
def truncQ (q : ℚ) : ℤ :=
  if 0 ≤ q then ⌊q⌋ else -⌊-q⌋

/-- Numpy `np.linspace(a, b, num)` (endpoint included, `num ≥ 1`; `num = 1` gives `[a]`). -/
def linspace (a b : ℚ) (num : ℕ) : List ℚ :=
  (List.range num).map fun i : ℕ => a + (b - a) * (i : ℚ) / ((num - 1 : ℕ) : ℚ)

/-- Python `range(a, b, step)` for a positive step. -/
def rangeStep (a b step : ℕ) : List ℕ :=
  (List.range ((b - a + step - 1) / step)).map fun i => a + i * step

/-- Numpy `np.fft.rfftfreq(n, 1/fs)`: the one-sided frequency axis `k·fs/n`, `k = 0..n/2`. -/
def rfftfreq (n fs : ℕ) : List ℚ :=
  (List.range (n / 2 + 1)).map fun k : ℕ => ((k : ℚ) * fs) / n

/-- Numpy `np.mean` of a rational list (`0` for the empty list, where numpy yields NaN;
no claim depends on the empty case). -/
def meanQ (l : List ℚ) : ℚ := l.sum / l.length

/-- Numpy `np.mean` of a real list (same empty-list convention as `meanQ`). -/
noncomputable def meanR (l : List ℝ) : ℝ := l.sum / l.length

/-- Numpy `np.max(np.abs(x))` with the value `0` on the empty list (the callers embedded
here guard the empty case themselves). -/
def peakAbs (x : List ℚ) : ℚ := x.foldl (fun m v => max m |v|) 0

/-- Numpy `np.mean(x**2)`. -/
def meanSq (x : List ℚ) : ℚ := meanQ (x.map (fun v => v ^ 2))

/-! ## Signal conditioner (`normalize_mono`) -/

/-- Embeds `week5_v4/week5_v3 analyzer.normalize_mono` on a mono buffer: if the peak
absolute amplitude exceeds `1.0`, scale by `1/(peak + 1e-12)`, otherwise return
the buffer unchanged.  (The `x.ndim == 2` branch of the source averages the
channels first and is modelled by `monoMean` below; the claims concern the mono
path.)  Empty buffers take `m = 0`. -/
def normalize_mono (x : List ℚ) : List ℚ :=
  let m := match x with | [] => 0 | _ => peakAbs x
  if 1 < m then x.map (fun v => v / (m + 1/10^12)) else x

/-- Embeds the `x.mean(axis=1)` 2-D branch of `normalize_mono`: per-sample average
over channels. -/
def monoMean (x : List (List ℚ)) : List ℚ := x.map meanQ

/-- Root `src/analyzer.normalize_mono` on a mono buffer: *always* divides by
`max|x| + 1e-7` (`m = 1.0` for an empty buffer). -/
def normalize_mono_main (x : List ℚ) : List ℚ :=
  let m := match x with | [] => 1 | _ => peakAbs x
  x.map (fun v => v / (m + 1/10^7))

/-! ## Segment builder (`build_segments`) -/

/-- Embeds `week5_v4/week5_v3/week4_v2 analyzer.build_segments` (identical in the three
versions): from consecutive marker pairs build guarded ranges, keeping
`(a, b) = (max 0 (mᵢ + guard), max 0 (mᵢ₊₁ − guard))` only when `b > a` and
`(b − a)/fs ≥ min_len_s`; fewer than two markers give `[]`.  The signal
argument `x` is unused in the source as well. -/
def build_segments (x : List ℚ) (fs : ℕ) (markers : List ℤ)
    (guard_ms : ℤ := 60) (min_len_s : ℚ := 1/4) : List (ℤ × ℤ) :=
  if markers.length < 2 then []
  else
    let guard := pyRound ((guard_ms : ℚ) * (1/1000) * fs)
    (markers.zip markers.tail).filterMap fun p =>
      let a := max 0 (p.1 + guard)
      let b := max 0 (p.2 - guard)
      if b > a ∧ (b - a : ℚ) / fs ≥ min_len_s then some (a, b) else none

/-! ## Marker separation (final stage of `detect_beeps`) -/

/-- The greedy separation loop ending `detect_beeps`: walk the (sorted) marker
list, retaining a marker `m` only when its time `m/fs` is at least `min_sep_s`
after the last retained time (initially `-1e9`). -/
def min_sep_filter (fs : ℕ) (min_sep_s : ℚ) : List ℤ → ℚ → List ℤ
  | [], _ => []
  | m :: ms, last =>
    if (m : ℚ) / fs - last ≥ min_sep_s then
      m :: min_sep_filter fs min_sep_s ms ((m : ℚ) / fs)
    else
      min_sep_filter fs min_sep_s ms last

/-! ## Marker detector (`detect_beeps` and its stages, week5_v4 version) -/

/-- Numpy `np.argmax`: index of the first occurrence of the maximum (`0` on `[]`). -/
noncomputable def np_argmax : List ℝ → ℕ
  | [] => 0
  | [_] => 0
  | v :: rest =>
    let j := np_argmax rest
    if v < rest.getD j 0 then j + 1 else 0

/-- Numpy `np.median`: middle element of the sorted list, or the average of the two
middle elements (`0` on `[]`, where numpy yields NaN; the callers embedded here
only hit that case on an empty envelope, which detects no beeps either way). -/
noncomputable def np_median (l : List ℝ) : ℝ :=
  let s := l.insertionSort (· ≤ ·)
  let n := s.length
  if n % 2 = 1 then s.getD (n / 2) 0
  else (s.getD (n / 2 - 1) 0 + s.getD (n / 2) 0) / 2

/-- The recursive loop of `highpass_first_order`:
`y[n] = a*(y[n-1] + x[n] - x[n-1])`. -/
noncomputable def hpf_loop (a : ℝ) : List ℝ → ℝ → ℝ → List ℝ
  | [], _, _ => []
  | v :: rest, y_prev, x_prev =>
    let y_n := a * (y_prev + v - x_prev)
    y_n :: hpf_loop a rest y_n v

/-- Embeds `week5_v4 analyzer.highpass_first_order`: one-pole high-pass with
`a = RC/(RC + dt)`, `RC = 1/(2π·max(1, cutoff))`, zero initial state. -/
noncomputable def highpass_first_order (x : List ℚ) (fs : ℕ) (cutoff : ℚ := 1000) : List ℝ :=
  let dt : ℝ := 1 / fs
  let RC : ℝ := 1 / (2 * Real.pi * ((max 1 cutoff : ℚ) : ℝ))
  let a := RC / (RC + dt)
  hpf_loop a (x.map (fun q => (q : ℝ))) 0 0

/-- Embeds `week5_v4 analyzer.short_time_rms`: windowed RMS envelope (times, values);
`win`/`hop` are `max(1, round(win_s·fs))` samples, frame `i` covers
`x[i·hop : i·hop + win]`, value `sqrt(mean(seg²) + 1e-20)`. -/
noncomputable def short_time_rms (x : List ℝ) (fs : ℕ) (win_s : ℚ := 1/50)
    (hop_s : ℚ := 1/100) : List ℝ × List ℝ :=
  let win := (max 1 (pyRound (win_s * fs))).toNat
  let hop := (max 1 (pyRound (hop_s * fs))).toNat
  let n := x.length
  let frames := (1 + max 0 (((n : ℤ) - win).fdiv hop)).toNat
  let times := (List.range frames).map fun i => (((i * hop + (win : ℚ) / 2) / fs : ℚ) : ℝ)
  let rms := (List.range frames).map fun i =>
    Real.sqrt (meanR (((x.drop (i * hop)).take win).map (fun v => v ^ 2)) + 1/10^20)
  (times, rms)

/-- The run-extraction `while` loop of `detect_beeps`: group contiguous
above-threshold frames into runs and keep, for each run, the index of its first
maximal frame. -/
noncomputable def extract_runs (thr : ℝ) : List ℝ → ℕ → List ℕ
  | [], _ => []
  | v :: rest, base =>
    if thr < v then
      let run := (v :: rest).takeWhile (fun u => decide (thr < u))
      (base + np_argmax run) ::
        extract_runs thr ((v :: rest).dropWhile (fun u => decide (thr < u))) (base + run.length)
    else extract_runs thr rest (base + 1)
termination_by l _ => l.length
decreasing_by
  · have h1 : List.dropWhile (fun u => decide (thr < u)) (v :: rest)
        = List.dropWhile (fun u => decide (thr < u)) rest :=
      List.dropWhile_cons_of_pos (by simpa using ‹thr < v›)
    have h3 : (List.dropWhile (fun u => decide (thr < u)) rest).length ≤ rest.length :=
      (List.dropWhile_sublist _).length_le
    rw [h1]
    simp only [List.length_cons]
    omega
  · simp

/-- Embeds `week5_v4 analyzer.detect_beeps`: high-pass (optional), short-time RMS in
dB, threshold at `median + thr_db_over_median`, run extraction, conversion of
10 ms frame indices to sample indices, sort, then greedy minimum-separation
filtering starting from `last = -1e9`. -/
noncomputable def detect_beeps (x : List ℚ) (fs : ℕ) (use_hpf : Bool := true)
    (cutoff_hz : ℚ := 1000) (thr_db_over_median : ℝ := 10) (min_sep_s : ℚ := 3/5) :
    List ℤ :=
  let y := if use_hpf then highpass_first_order x fs cutoff_hz else x.map (fun q => (q : ℝ))
  let r := (short_time_rms y fs (1/50) (1/100)).2
  let r_db := r.map (fun v => 20 * Real.logb 10 (v + 1/10^20))
  let med := np_median r_db
  let thr := med + thr_db_over_median
  let beeps_frames := extract_runs thr r_db 0
  let markers := (beeps_frames.map (fun k => truncQ ((k : ℚ) * (1/100) * fs))).insertionSort (· ≤ ·)
  min_sep_filter fs min_sep_s markers (-(10^9))

/-! ## Helper lemmas about `peakAbs` -/

lemma le_foldlMax (x : List ℚ) (c : ℚ) : c ≤ x.foldl (fun m v => max m |v|) c := by
  induction x generalizing c with
  | nil => exact le_refl c
  | cons v t ih => exact le_trans (le_max_left c |v|) (ih (max c |v|))

lemma mem_le_foldlMax {x : List ℚ} {v : ℚ} (hv : v ∈ x) (c : ℚ) :
    |v| ≤ x.foldl (fun m u => max m |u|) c := by
  induction x generalizing c with
  | nil => cases hv
  | cons a t ih =>
    rcases List.mem_cons.1 hv with h | h
    · subst h
      exact le_trans (le_max_right c |v|) (le_foldlMax t (max c |v|))
    · exact ih h (max c |a|)

lemma foldlMax_le {x : List ℚ} {c b : ℚ} (hc : c ≤ b) (h : ∀ v ∈ x, |v| ≤ b) :
    x.foldl (fun m v => max m |v|) c ≤ b := by
  induction x generalizing c with
  | nil => exact hc
  | cons v t ih =>
    exact ih (max_le hc (h v (List.mem_cons_self v t))) fun u hu => h u (List.mem_cons_of_mem v hu)

lemma peakAbs_nonneg (x : List ℚ) : 0 ≤ peakAbs x := le_foldlMax x 0

lemma mem_le_peakAbs {x : List ℚ} {v : ℚ} (hv : v ∈ x) : |v| ≤ peakAbs x :=
  mem_le_foldlMax hv 0

lemma peakAbs_le {x : List ℚ} {b : ℚ} (hb : 0 ≤ b) (h : ∀ v ∈ x, |v| ≤ b) :
    peakAbs x ≤ b := foldlMax_le hb h

/-! ## C2 — `normalize_mono` -/

lemma normalize_mono_m (x : List ℚ) :
    (match x with | [] => 0 | _ => peakAbs x) = peakAbs x := by
  cases x <;> simp [peakAbs]

lemma normalize_mono_unchanged {x : List ℚ} (h : peakAbs x ≤ 1) : normalize_mono x = x := by
  unfold normalize_mono
  rw [normalize_mono_m]
  exact if_neg (not_lt.2 h)

lemma normalize_mono_scaled {x : List ℚ} (h : 1 < peakAbs x) :
    normalize_mono x = x.map (fun v => v / (peakAbs x + 1/10^12)) := by
  unfold normalize_mono
  rw [normalize_mono_m]
  exact if_pos h

lemma normalize_mono_peak_le (x : List ℚ) : peakAbs (normalize_mono x) ≤ 1 + 1/10^12 := by
  by_cases h : 1 < peakAbs x
  · rw [normalize_mono_scaled h]
    have hd : (0 : ℚ) < peakAbs x + 1/10^12 := by positivity
    refine peakAbs_le (by norm_num) ?_
    intro v hv
    rcases List.mem_map.1 hv with ⟨u, hu, rfl⟩
    have h1 : |u| ≤ peakAbs x := mem_le_peakAbs hu
    have h2 : |u / (peakAbs x + 1/10^12)| = |u| / (peakAbs x + 1/10^12) := by
      rw [abs_div, abs_of_pos hd]
    rw [h2]
    have h3 : |u| / (peakAbs x + 1/10^12) ≤ 1 := (div_le_one hd).2 (by linarith)
    linarith
  · rw [normalize_mono_unchanged (not_lt.1 h)]
    have := not_lt.1 h
    linarith

lemma normalize_mono_main_peak_le (x : List ℚ) :
    peakAbs (normalize_mono_main x) ≤ 1 + 1/10^7 := by
  unfold normalize_mono_main
  cases x with
  | nil => simp [peakAbs]; norm_num
  | cons a t =>
    have hm0 : 0 ≤ peakAbs (a :: t) := peakAbs_nonneg _
    have hd : (0 : ℚ) < peakAbs (a :: t) + 1/10^7 := by positivity
    refine peakAbs_le (by norm_num) ?_
    intro v hv
    rcases List.mem_map.1 hv with ⟨u, hu, rfl⟩
    have h1 : |u| ≤ peakAbs (a :: t) := mem_le_peakAbs hu
    have h2 : |u / (peakAbs (a :: t) + 1/10^7)| = |u| / (peakAbs (a :: t) + 1/10^7) := by
      rw [abs_div, abs_of_pos hd]
    rw [h2]
    have h3 : |u| / (peakAbs (a :: t) + 1/10^7) ≤ 1 := (div_le_one hd).2 (by linarith)
    linarith

/-- C2 (counterexample): the claim "`normalize` returns `x` unchanged whenever the
peak is ≤ 1.0" is false for the root `src` version of `normalize_mono`, which
always divides by `peak + 1e-7`: the quiet buffer `[1/2]` is changed. -/
theorem C2_counterexample :
    peakAbs [(1/2 : ℚ)] ≤ 1 ∧ normalize_mono_main [(1/2 : ℚ)] ≠ [(1/2 : ℚ)] := by
  have hp : peakAbs [(1/2 : ℚ)] = 1/2 := by
    simp [peakAbs, List.foldl, abs_of_nonneg]
  constructor
  · rw [hp]; norm_num
  · unfold normalize_mono_main
    simp only [List.map, hp]
    intro h
    have := List.head_eq_of_cons_eq h
    norm_num at this

/-- C2 (amended): the week5_v4/v3 `normalize_mono` leaves a buffer with peak ≤ 1.0
unchanged, scales by `1/(peak + 1e-12)` when the peak exceeds 1.0, and always
bounds the output peak by `1.0 + 1e-12`; the root `src` `normalize_mono` instead
always rescales by `1/(peak + 1e-7)` (so it changes quiet buffers), but its
output peak is still bounded, by `1.0 + 1e-7`. -/
theorem C2_normalize_amended :
    (∀ x : List ℚ, peakAbs x ≤ 1 → normalize_mono x = x) ∧
    (∀ x : List ℚ, 1 < peakAbs x →
      normalize_mono x = x.map (fun v => v / (peakAbs x + 1/10^12))) ∧
    (∀ x : List ℚ, peakAbs (normalize_mono x) ≤ 1 + 1/10^12) ∧
    (∀ x : List ℚ, peakAbs (normalize_mono_main x) ≤ 1 + 1/10^7) :=
  ⟨fun _ h => normalize_mono_unchanged h,
   fun _ h => normalize_mono_scaled h,
   normalize_mono_peak_le,
   normalize_mono_main_peak_le⟩

/-- C2 witness: the amended statement at concrete buffers. -/
theorem C2_normalize_amended_witness :
    normalize_mono [(1/2 : ℚ)] = [(1/2 : ℚ)] ∧
    normalize_mono [(2 : ℚ)] = [(2 : ℚ)].map (fun v => v / (peakAbs [(2 : ℚ)] + 1/10^12)) ∧
    peakAbs (normalize_mono [(3 : ℚ), (-4 : ℚ)]) ≤ 1 + 1/10^12 ∧
    peakAbs (normalize_mono_main [(1/2 : ℚ)]) ≤ 1 + 1/10^7 :=
  ⟨C2_normalize_amended.1 [(1/2 : ℚ)]
     (by simp only [peakAbs, List.foldl]; rw [abs_of_nonneg (by norm_num)]; norm_num),
   C2_normalize_amended.2.1 [(2 : ℚ)]
     (by simp only [peakAbs, List.foldl]; rw [abs_of_nonneg (by norm_num)]; norm_num),
   C2_normalize_amended.2.2.1 [(3 : ℚ), (-4 : ℚ)],
   C2_normalize_amended.2.2.2 [(1/2 : ℚ)]⟩

/-! ## C5 — `build_segments` basic guarantees -/

/-- C5: every segment returned by `build_segments` has `b > a` and duration
`(b − a)/fs ≥ min_len_s`; fewer than two markers give the empty list; and at
most `N − 1` segments are returned for `N` markers. -/
theorem C5_build_segments_spec (x : List ℚ) (fs : ℕ) (markers : List ℤ)
    (guard_ms : ℤ) (min_len_s : ℚ) :
    (∀ s ∈ build_segments x fs markers guard_ms min_len_s,
        s.1 < s.2 ∧ min_len_s ≤ ((s.2 : ℚ) - (s.1 : ℚ)) / fs) ∧
    (markers.length < 2 → build_segments x fs markers guard_ms min_len_s = []) ∧
    (build_segments x fs markers guard_ms min_len_s).length ≤ markers.length - 1 := by
  refine ⟨?_, ?_, ?_⟩
  · intro s hs
    unfold build_segments at hs
    by_cases hlen : markers.length < 2
    · rw [if_pos hlen] at hs; cases hs
    · rw [if_neg hlen] at hs
      rcases List.mem_filterMap.1 hs with ⟨p, _, hp⟩
      dsimp only at hp
      split at hp
      · rename_i hcond
        cases hp
        exact ⟨hcond.1, by exact_mod_cast hcond.2⟩
      · cases hp
  · intro hlen
    unfold build_segments
    exact if_pos hlen
  · unfold build_segments
    by_cases hlen : markers.length < 2
    · rw [if_pos hlen]; simp
    · rw [if_neg hlen]
      calc (List.filterMap _ (markers.zip markers.tail)).length
          ≤ (markers.zip markers.tail).length := List.length_filterMap_le _ _
        _ ≤ markers.length - 1 := by
            rw [List.length_zip, List.length_tail]
            omega

/-- C5 witness: concrete markers `[0, 48000]` at 48 kHz with default guard
(60 ms) and minimum length (0.25 s) yield the segment `(2880, 45120)`, which
satisfies both bounds. -/
theorem C5_build_segments_spec_witness :
    ((2880 : ℤ), (45120 : ℤ)) ∈ build_segments [] 48000 [0, 48000] 60 (1/4) ∧
    (2880 : ℤ) < 45120 ∧ (1/4 : ℚ) ≤ ((45120 : ℚ) - (2880 : ℚ)) / 48000 := by
  have hg : pyRound ((60 : ℤ) * (1/1000 : ℚ) * (48000 : ℕ)) = 2880 := by
    norm_num [pyRound]
  have hmem : ((2880 : ℤ), (45120 : ℤ)) ∈ build_segments [] 48000 [0, 48000] 60 (1/4) := by
    simp only [build_segments, List.length_cons, List.length_nil, List.zip, List.tail,
      List.zipWith, List.filterMap, hg]
    norm_num
  exact ⟨hmem, (C5_build_segments_spec [] 48000 [0, 48000] 60 (1/4)).1 _ hmem⟩

/-! ## C10 — segments are ordered and disjoint -/

lemma pyRound_nonneg {q : ℚ} (hq : 0 ≤ q) : 0 ≤ pyRound q := by
  have h0 : (0 : ℤ) ≤ ⌊q⌋ := by
    rw [Int.le_floor]
    exact_mod_cast hq
  unfold pyRound
  dsimp only
  split
  · exact h0
  · split
    · omega
    · split
      · exact h0
      · omega

lemma pairwise_zip_tail {l : List ℤ} (h : List.Pairwise (· < ·) l) :
    List.Pairwise (fun p q : ℤ × ℤ => p.2 ≤ q.1) (l.zip l.tail) := by
  induction l with
  | nil => exact List.Pairwise.nil
  | cons a t ih =>
    cases t with
    | nil => exact List.Pairwise.nil
    | cons b t' =>
      have hbt : List.Pairwise (· < ·) (b :: t') := h.tail
      refine List.Pairwise.cons ?_ (ih hbt)
      intro q hq
      have hq1 : q.1 ∈ b :: t' := by
        have := List.of_mem_zip (a := q.1) (b := q.2) (by simpa using hq)
        exact this.1
      rcases List.mem_cons.1 hq1 with h1 | h1
      · simp [h1]
      · have : b < q.1 := (List.pairwise_cons.1 hbt).1 q.1 h1
        simp only [List.tail_cons]
        linarith

/-- C10: for strictly ascending markers and a nonnegative guard, the segments
returned by `build_segments` are strictly ascending and pairwise disjoint:
whenever segment `s` precedes segment `t` in the returned list, `s.1 < t.1`
and `s.2 ≤ t.1`. -/
theorem C10_build_segments_disjoint (x : List ℚ) (fs : ℕ) (markers : List ℤ)
    (guard_ms : ℤ) (min_len_s : ℚ)
    (hsort : List.Chain' (· < ·) markers) (hg : 0 ≤ guard_ms) :
    List.Pairwise (fun s t : ℤ × ℤ => s.1 < t.1 ∧ s.2 ≤ t.1)
      (build_segments x fs markers guard_ms min_len_s) := by
  unfold build_segments
  by_cases hlen : markers.length < 2
  · rw [if_pos hlen]; exact List.Pairwise.nil
  · rw [if_neg hlen]
    have hguard : 0 ≤ pyRound ((guard_ms : ℚ) * (1/1000) * fs) := by
      refine pyRound_nonneg ?_
      have : (0 : ℚ) ≤ (guard_ms : ℚ) := by exact_mod_cast hg
      positivity
    set g := pyRound ((guard_ms : ℚ) * (1/1000) * fs) with hgdef
    have hpw : List.Pairwise (fun p q : ℤ × ℤ => p.2 ≤ q.1) (markers.zip markers.tail) :=
      pairwise_zip_tail (List.chain'_iff_pairwise.1 hsort)
    refine hpw.filterMap _ ?_
    intro p q hpq s hs t ht
    simp only [Option.mem_def] at hs ht
    split at hs
    · rename_i hcondp
      cases hs
      split at ht
      · rename_i hcondq
        cases ht
        constructor
        · calc max 0 (p.1 + g) < max 0 (p.2 - g) := hcondp.1
            _ ≤ max 0 (q.1 + g) := max_le_max (le_refl 0) (by linarith)
        · exact max_le_max (le_refl 0) (by linarith)
      · cases ht
    · cases hs

/-- C10 witness: three strictly ascending markers at 48 kHz with the default
60 ms guard produce pairwise-disjoint, ascending segments. -/
theorem C10_build_segments_disjoint_witness :
    List.Chain' (· < ·) [(0 : ℤ), 48000, 96000] ∧ (0 : ℤ) ≤ 60 ∧
    List.Pairwise (fun s t : ℤ × ℤ => s.1 < t.1 ∧ s.2 ≤ t.1)
      (build_segments [] 48000 [0, 48000, 96000] 60 (1/4)) :=
  ⟨by simp, by decide,
   C10_build_segments_disjoint [] 48000 [0, 48000, 96000] 60 (1/4) (by simp) (by decide)⟩

/-! ## C4 — `detect_beeps` markers are ascending with enforced separation -/

lemma min_sep_filter_mem_time {fs : ℕ} {ms : ℚ} (hms : 0 ≤ ms) :
    ∀ (l : List ℤ) (last : ℚ) (y : ℤ), y ∈ min_sep_filter fs ms l last →
      last + ms ≤ (y : ℚ) / fs := by
  intro l
  induction l with
  | nil => intro last y hy; cases hy
  | cons m t ih =>
    intro last y hy
    unfold min_sep_filter at hy
    split at hy
    · rename_i hkeep
      rcases List.mem_cons.1 hy with h1 | h1
      · subst h1; linarith
      · have := ih ((m : ℚ) / fs) y h1
        have hm : last + ms ≤ (m : ℚ) / fs := by linarith
        linarith
    · exact ih last y hy

lemma min_sep_filter_chain {fs : ℕ} {ms : ℚ} (hms : 0 ≤ ms) :
    ∀ (l : List ℤ) (last : ℚ),
      List.Chain' (fun a b : ℤ => (a : ℚ) / fs + ms ≤ (b : ℚ) / fs)
        (min_sep_filter fs ms l last) := by
  intro l
  induction l with
  | nil => intro last; exact List.chain'_nil
  | cons m t ih =>
    intro last
    unfold min_sep_filter
    split
    · refine List.chain'_cons'.2 ⟨?_, ih ((m : ℚ) / fs)⟩
      intro y hy
      have hmem : y ∈ min_sep_filter fs ms t ((m : ℚ) / fs) :=
        List.mem_of_mem_head? hy
      exact min_sep_filter_mem_time hms t ((m : ℚ) / fs) y hmem
    · exact ih last

/-- C4: for a positive sample rate and positive minimum separation, the marker
list returned by `detect_beeps` is strictly ascending and consecutive markers
are at least `min_sep_s · fs` samples apart. -/
theorem C4_detect_beeps_separation (x : List ℚ) (fs : ℕ) (use_hpf : Bool)
    (cutoff_hz : ℚ) (thr_db : ℝ) (min_sep_s : ℚ)
    (hfs : 0 < fs) (hsep : 0 < min_sep_s) :
    List.Chain' (fun a b : ℤ => a < b ∧ min_sep_s * fs ≤ (b : ℚ) - (a : ℚ))
      (detect_beeps x fs use_hpf cutoff_hz thr_db min_sep_s) := by
  have hfsQ : (0 : ℚ) < fs := by exact_mod_cast hfs
  unfold detect_beeps
  refine (min_sep_filter_chain (le_of_lt hsep) _ _).imp ?_
  intro a b hab
  have hmul : ((a : ℚ) / fs + min_sep_s) * fs ≤ ((b : ℚ) / fs) * fs :=
    mul_le_mul_of_nonneg_right hab (le_of_lt hfsQ)
  rw [add_mul, div_mul_cancel₀ _ (ne_of_gt hfsQ), div_mul_cancel₀ _ (ne_of_gt hfsQ)] at hmul
  constructor
  · have : (a : ℚ) < (b : ℚ) := by nlinarith
    exact_mod_cast this
  · linarith

/-- C4 witness: the theorem applied to the empty signal at 48 kHz with the
default parameters (the separation property of the returned marker list). -/
theorem C4_detect_beeps_separation_witness :
    0 < (48000 : ℕ) ∧ (0 : ℚ) < 3/5 ∧
    List.Chain' (fun a b : ℤ => a < b ∧ (3/5 : ℚ) * (48000 : ℕ) ≤ (b : ℚ) - (a : ℚ))
      (detect_beeps [] 48000 true 1000 10 (3/5)) :=
  ⟨by decide, by norm_num,
   C4_detect_beeps_separation [] 48000 true 1000 10 (3/5) (by decide) (by norm_num)⟩

/-! ## Level metrics (`rms_db`, `crest_factor_db`, week5_v4/v3 versions) -/

/-- Embeds `week5_v4/week5_v3 analyzer.rms_db`:
`20·log10(sqrt(mean(x²) + 1e-20) + 1e-20)`. -/
noncomputable def rms_db (x : List ℚ) : ℝ :=
  20 * Real.logb 10 (Real.sqrt ((meanSq x : ℝ) + 1/10^20) + 1/10^20)

/-- Embeds `week5_v4/week5_v3 analyzer.crest_factor_db`:
`20·log10((max|x| + 1e-20) / (sqrt(mean(x²) + 1e-20) + 1e-20))`. -/
noncomputable def crest_factor_db (x : List ℚ) : ℝ :=
  let peak : ℝ := (peakAbs x : ℝ) + 1/10^20
  let rms : ℝ := Real.sqrt ((meanSq x : ℝ) + 1/10^20)
  20 * Real.logb 10 (peak / (rms + 1/10^20))

lemma meanSq_nonneg (x : List ℚ) : 0 ≤ meanSq x := by
  unfold meanSq meanQ
  apply div_nonneg _ (by positivity)
  apply List.sum_nonneg
  intro v hv
  rcases List.mem_map.1 hv with ⟨u, _, rfl⟩
  positivity

/-! ## C6 — sign of the crest factor -/

lemma peakAbs_two : peakAbs [(1 : ℚ), (-1 : ℚ)] = 1 := by
  simp only [peakAbs, List.foldl]
  rw [abs_of_nonneg (by norm_num : (0:ℚ) ≤ 1), abs_of_nonpos (by norm_num : (-1:ℚ) ≤ 0)]
  norm_num

lemma meanSq_two : meanSq [(1 : ℚ), (-1 : ℚ)] = 1 := by
  simp only [meanSq, meanQ, List.map, List.sum_cons, List.sum_nil, List.length]
  norm_num

/-- C6 (counterexample): in exact arithmetic the crest factor of the
non-constant signal `[1, −1]` is (very slightly) negative: its peak and RMS
are both `1`, but the `1e-20` epsilon inside the square root pushes the
denominator above the numerator, so the claimed `crest_factor_db(x) ≥ 0` fails
for signals of constant magnitude. -/
theorem C6_counterexample :
    crest_factor_db [(1 : ℚ), (-1 : ℚ)] < 0 ∧ (1 : ℚ) ≠ -1 := by
  refine ⟨?_, by norm_num⟩
  unfold crest_factor_db
  rw [peakAbs_two, meanSq_two]
  have hsq : (1 : ℝ) < Real.sqrt (1 + 1/10^20) := by
    rw [show (1:ℝ) = Real.sqrt 1 by rw [Real.sqrt_one]]
    apply Real.sqrt_lt_sqrt (by norm_num)
    norm_num
  have hratio_pos : (0 : ℝ) < ((1 : ℚ) : ℝ) + 1/10^20 := by push_cast; norm_num
  have hden_pos : (0 : ℝ) < Real.sqrt (1 + 1/10^20) + 1/10^20 := by positivity
  have hratio_lt :
      (((1 : ℚ) : ℝ) + 1/10^20) / (Real.sqrt (((1:ℚ) : ℝ) + 1/10^20) + 1/10^20) < 1 := by
    rw [div_lt_one (by push_cast at hden_pos ⊢; convert hden_pos using 3)]

    push_cast
    push_cast at hsq
    linarith
  have hlogb : Real.logb 10
      ((((1 : ℚ) : ℝ) + 1/10^20) / (Real.sqrt (((1:ℚ) : ℝ) + 1/10^20) + 1/10^20)) < 0 := by
    apply Real.logb_neg (by norm_num)
    · apply div_pos hratio_pos
      push_cast
      push_cast at hden_pos
      convert hden_pos using 3
    · exact hratio_lt
  nlinarith [hlogb]

/-- C6 (amended): `crest_factor_db(x) ≥ 0` holds for every signal whose squared
peak exceeds its mean square by at least the `1e-20` epsilon used in the code
(in particular for any signal whose magnitude is non-constant by more than the
epsilon); for signals of constant magnitude, such as the non-constant `[1, −1]`
of the counterexample, the exact value is slightly negative. -/
theorem C6_crest_amended (x : List ℚ) (h : meanSq x + 1/10^20 ≤ (peakAbs x)^2) :
    0 ≤ crest_factor_db x := by
  unfold crest_factor_db
  have hP : (0 : ℝ) ≤ (peakAbs x : ℝ) := by exact_mod_cast peakAbs_nonneg x
  have hMε : ((meanSq x : ℝ)) + 1/10^20 ≤ ((peakAbs x : ℝ)) ^ 2 := by
    have h2 : ((meanSq x + 1/10^20 : ℚ) : ℝ) ≤ (((peakAbs x)^2 : ℚ) : ℝ) := by
      exact_mod_cast h
    push_cast at h2
    linarith
  have hsqrt : Real.sqrt ((meanSq x : ℝ) + 1/10^20) ≤ (peakAbs x : ℝ) := by
    calc Real.sqrt ((meanSq x : ℝ) + 1/10^20)
        ≤ Real.sqrt (((peakAbs x : ℝ)) ^ 2) := Real.sqrt_le_sqrt hMε
      _ = (peakAbs x : ℝ) := Real.sqrt_sq hP
  have hden_pos : (0 : ℝ) < Real.sqrt ((meanSq x : ℝ) + 1/10^20) + 1/10^20 := by positivity
  have hone_le : (1 : ℝ) ≤
      ((peakAbs x : ℝ) + 1/10^20) / (Real.sqrt ((meanSq x : ℝ) + 1/10^20) + 1/10^20) := by
    rw [le_div_iff₀ hden_pos]
    linarith
  have := Real.logb_nonneg (b := 10) (by norm_num) hone_le
  linarith

/-- C6 witness: the amended statement at the concrete signal `[1, 0]`
(peak `1`, mean square `1/2`). -/
theorem C6_crest_amended_witness :
    meanSq [(1 : ℚ), 0] + 1/10^20 ≤ (peakAbs [(1 : ℚ), 0])^2 ∧
    0 ≤ crest_factor_db [(1 : ℚ), 0] := by
  have h : meanSq [(1 : ℚ), 0] + 1/10^20 ≤ (peakAbs [(1 : ℚ), 0])^2 := by
    have h1 : peakAbs [(1 : ℚ), 0] = 1 := by
      simp only [peakAbs, List.foldl]
      rw [abs_of_nonneg (by norm_num : (0:ℚ) ≤ 1)]
      norm_num
    have h2 : meanSq [(1 : ℚ), 0] = 1/2 := by
      simp only [meanSq, meanQ, List.map, List.sum_cons, List.sum_nil, List.length]
      norm_num
    rw [h1, h2]
    norm_num
  exact ⟨h, C6_crest_amended [(1 : ℚ), 0] h⟩

/-! ## Welch PSD estimators -/

/-- Embeds `week5_v3 analyzer._hann`: periodic Hann window `0.5 − 0.5·cos(2πn/N)`. -/
noncomputable def hann_v3 (n : ℕ) : List ℝ :=
  (List.range n).map fun k => 1/2 - 1/2 * Real.cos (2 * Real.pi * k / n)

/-- Numpy `np.hanning(M)`: symmetric Hann window `0.5 − 0.5·cos(2πn/(M−1))`. -/
noncomputable def np_hanning (m : ℕ) : List ℝ :=
  (List.range m).map fun k => 1/2 - 1/2 * Real.cos (2 * Real.pi * k / ((m - 1 : ℕ) : ℝ))

/-- Squared magnitude `|np.fft.rfft(v)[k]|²` for an `N`-point input: squared magnitude of the
`k`-th one-sided DFT bin. -/
noncomputable def rfft_sqmag (v : List ℝ) (N k : ℕ) : ℝ :=
  (∑ j ∈ Finset.range N, v.getD j 0 * Real.cos (2 * Real.pi * k * j / N)) ^ 2 +
  (∑ j ∈ Finset.range N, v.getD j 0 * Real.sin (2 * Real.pi * k * j / N)) ^ 2

/-- Pointwise mean across the rows of a list of per-segment periodograms
(`np.mean(segs, axis=0)` / accumulate-then-divide). -/
noncomputable def mean_rows (rows : List (List ℝ)) (bins : ℕ) : List ℝ :=
  (List.range bins).map fun k => (rows.map (fun r => r.getD k 0)).sum / rows.length

/-- Embeds `week5_v3 analyzer.welch_db`: Hann-windowed, 50 %-overlap Welch PSD in dB.
Inputs of length ≤ 1 return the `([0], [−300 dB])` sentinel; otherwise the
segment length is clamped to `min(max(256, nperseg), n)`, the per-segment
single-sided periodograms `|rfft(seg·w)|²·(2/(Σw²·fs))` are averaged, clamped
to `≥ 1e-30`, and converted by `10·log10`. -/
noncomputable def welch_db_v3 (x : List ℚ) (fs : ℕ) (npersegP : ℕ := 4096)
    (noverlapP : Option ℕ := none) : List ℚ × List ℝ :=
  let n := x.length
  if n ≤ 1 then
    (linspace 0 ((fs : ℚ)/2) 1, List.replicate 1 (-300 : ℝ))
  else
    let nperseg := min (max 256 npersegP) n
    let noverlap := noverlapP.getD (nperseg / 2)
    let step := max 1 (nperseg - noverlap)
    let w := hann_v3 nperseg
    let w2 := (w.map (fun v => v ^ 2)).sum
    let scale := 1 / (w2 * (fs : ℝ))
    let starts := rangeStep 0 (n - nperseg + 1) step
    let segs0 := starts.map fun s => (x.drop s).take nperseg
    let segs := if segs0 = [] then [x.take nperseg] else segs0
    let bins := nperseg / 2 + 1
    let pxxs := segs.map fun seg =>
      let segw := List.zipWith (fun (a : ℚ) (b : ℝ) => (a : ℝ) * b) seg w
      (List.range bins).map fun k => rfft_sqmag segw nperseg k * scale * 2
    let Pxx := mean_rows pxxs bins
    let Pc := Pxx.map fun p => max p ((1:ℝ)/10^30)
    (rfftfreq nperseg fs, Pc.map fun p => 10 * Real.logb 10 p)

/-- Embeds `week4_v2 analyzer.welch_psd_db`: same Welch scheme with `np.hanning`;
inputs of length ≤ 16 (under the default `nperseg`) return a flat −120 dB
spectrum over a 32-point default axis; an empty segment list also returns a
−120 dB sentinel (dead code under the default parameters). -/
noncomputable def welch_psd_db (x : List ℚ) (fs : ℕ) (npersegP : ℕ := 4096)
    (noverlapP : Option ℕ := none) : List ℚ × List ℝ :=
  let noverlap := noverlapP.getD (npersegP / 2)
  let step := max 1 (npersegP - noverlap)
  if x.length < npersegP ∧ max 16 x.length ≤ 16 then
    (linspace 0 ((fs : ℚ)/2) 32, List.replicate 32 (-120 : ℝ))
  else
    let nperseg := if x.length < npersegP then max 16 x.length else npersegP
    let win := np_hanning nperseg
    let scale := 1 / ((fs : ℝ) * (win.map (fun v => v ^ 2)).sum)
    let starts := rangeStep 0 (x.length - nperseg + 1) step
    let segs := starts.map fun s =>
      let seg := List.zipWith (fun (a : ℚ) (b : ℝ) => (a : ℝ) * b) ((x.drop s).take nperseg) win
      (List.range (nperseg / 2 + 1)).map fun k => rfft_sqmag seg nperseg k * scale
    if segs = [] then
      (rfftfreq nperseg fs, List.replicate (nperseg / 2 + 1) (-120 : ℝ))
    else
      let P := mean_rows segs (nperseg / 2 + 1)
      let Pc := P.map fun p => max p ((1:ℝ)/10^30)
      (rfftfreq nperseg fs, Pc.map fun p => 10 * Real.logb 10 p)

/-- The `ValueError` message of `week5_v4 analyzer._frame_signal`. -/
def noverlapMsg : String := "noverlap debe ser menor a nperseg"

/-- The numpy broadcasting error raised by `out[i, :] = x[s:s+nperseg]` when the
slice has neither length `nperseg` nor length 1. -/
def broadcastMsg : String := "could not broadcast input array"

/-- The zero-padding branch of `week5_v4 analyzer._frame_signal`
(`pad[:len(x)-s] = x[s:]`).  It is dead code in the source: the guard compares
`len(out[i,:])`, which always equals `nperseg`. -/
def zero_pad_row (x : List ℚ) (s nperseg : ℕ) : List ℚ :=
  let kept := (x.drop s).take (x.length - s)
  kept ++ List.replicate (nperseg - kept.length) 0

/-- Embeds `week5_v4 analyzer._frame_signal`: split into `nwin = 1 + max(0,
(n − nperseg)//step)` overlapping windows.  The row assignment
`out[i, :] = x[s:s+nperseg]` succeeds only when the slice has length `nperseg`
(copy) or length 1 (numpy broadcast); any other length raises a broadcast
`ValueError`, which makes the zero-padding branch unreachable. -/
def frame_signal (x : List ℚ) (nperseg noverlap : ℕ) : Except String (List (List ℚ)) :=
  if nperseg ≤ noverlap then Except.error noverlapMsg
  else
    let step := nperseg - noverlap
    let n := x.length
    let nwin := (1 + max 0 (((n : ℤ) - nperseg).fdiv step)).toNat
    if nwin = 0 then Except.ok []
    else
      (List.range nwin).mapM fun i =>
        let s := i * step
        let slice := (x.drop s).take nperseg
        if slice.length = nperseg then
          let row := slice
          Except.ok (if row.length < nperseg then zero_pad_row x s nperseg else row)
        else if slice.length = 1 then
          let row := List.replicate nperseg (slice.getD 0 0)
          Except.ok (if row.length < nperseg then zero_pad_row x s nperseg else row)
        else Except.error broadcastMsg

/-- The non-degenerate tail of `week5_v4 analyzer.welch_db`: window the frames,
compute `|rfft|²/(fs·Σw²)`, average across frames, clamp to `≥ 1e-30` and
convert to dB. -/
noncomputable def welch_main_v4 (frames : List (List ℚ)) (fs : ℕ) (nperseg : ℕ)
    (window : String) : List ℚ × List ℝ :=
  let win := if window = "hann" then np_hanning nperseg else List.replicate nperseg (1 : ℝ)
  let U := (win.map (fun v => v ^ 2)).sum
  let rows := frames.map fun fr =>
    let frw := List.zipWith (fun (a : ℚ) (b : ℝ) => (a : ℝ) * b) fr win
    (List.range (nperseg / 2 + 1)).map fun k => rfft_sqmag frw nperseg k / ((fs : ℝ) * U)
  let Pxx := mean_rows rows (nperseg / 2 + 1)
  let Pc := Pxx.map fun p => max p ((1:ℝ)/10^30)
  (rfftfreq nperseg fs, Pc.map fun p => 10 * Real.logb 10 p)

/-- Embeds `week5_v4 analyzer.welch_db`: frame the signal (possibly raising), return
the flat −300 dB sentinel if the frame array is empty (unreachable: `nwin ≥ 1`),
otherwise run the Welch computation. -/
noncomputable def welch_db_v4 (x : List ℚ) (fs : ℕ) (nperseg : ℕ := 4096)
    (window : String := "hann") : Except String (List ℚ × List ℝ) :=
  let noverlap := nperseg / 2
  match frame_signal x nperseg noverlap with
  | Except.error e => Except.error e
  | Except.ok frames =>
    if frames.length = 0 ∨ nperseg = 0 then
      Except.ok (linspace 0 ((fs : ℚ)/2) (nperseg / 2 + 1),
                 List.replicate (nperseg / 2 + 1) (-300 : ℝ))
    else Except.ok (welch_main_v4 frames fs nperseg window)

/-- The dB array of a possibly-failed `welch_db` call (`[]` on error). -/
def psd_values : Except String (List ℚ × List ℝ) → List ℝ
  | Except.error _ => []
  | Except.ok r => r.2

/-! ## C9 — the dB arrays of the Welch estimators are bounded below by −300 -/

lemma logb_ten_eps30 : Real.logb 10 ((1 : ℝ)/10^30) = -30 := by
  rw [one_div, Real.logb_inv]
  rw [show ((10 : ℝ)^30) = (10 : ℝ)^(30 : ℕ) by norm_num]
  rw [Real.logb_pow]
  rw [Real.logb_self_eq_one (by norm_num)]
  norm_num

lemma neg300_le_log_clamp (p : ℝ) : (-300 : ℝ) ≤ 10 * Real.logb 10 (max p ((1:ℝ)/10^30)) := by
  have h1 : (0 : ℝ) < 1/10^30 := by norm_num
  have h2 : (1 : ℝ)/10^30 ≤ max p ((1:ℝ)/10^30) := le_max_right _ _
  have h3 : Real.logb 10 ((1:ℝ)/10^30) ≤ Real.logb 10 (max p ((1:ℝ)/10^30)) :=
    Real.logb_le_logb_of_le (by norm_num) h1 h2
  rw [logb_ten_eps30] at h3
  linarith

lemma welch_db_v3_psd_lb (x : List ℚ) (fs : ℕ) (np : ℕ) (no : Option ℕ) :
    ∀ v ∈ (welch_db_v3 x fs np no).2, (-300 : ℝ) ≤ v := by
  intro v hv
  unfold welch_db_v3 at hv
  by_cases hn : x.length ≤ 1
  · rw [if_pos hn] at hv
    simp only [List.mem_replicate] at hv
    rw [hv.2]
  · rw [if_neg hn] at hv
    simp only [List.mem_map] at hv
    obtain ⟨p, ⟨q, _, rfl⟩, rfl⟩ := hv
    exact neg300_le_log_clamp q

lemma welch_psd_db_psd_lb (x : List ℚ) (fs : ℕ) (np : ℕ) (no : Option ℕ) :
    ∀ v ∈ (welch_psd_db x fs np no).2, (-300 : ℝ) ≤ v := by
  intro v hv
  unfold welch_psd_db at hv
  by_cases hs : x.length < np ∧ max 16 x.length ≤ 16
  · rw [if_pos hs] at hv
    simp only [List.mem_replicate] at hv
    rw [hv.2]; norm_num
  · rw [if_neg hs] at hv
    by_cases hsegs : (rangeStep 0 (x.length - (if x.length < np then max 16 x.length else np) + 1)
        (max 1 (np - no.getD (np / 2)))).map (fun s =>
          (List.range ((if x.length < np then max 16 x.length else np) / 2 + 1)).map fun k =>
            rfft_sqmag
              (List.zipWith (fun (a : ℚ) (b : ℝ) => (a : ℝ) * b)
                ((x.drop s).take (if x.length < np then max 16 x.length else np))
                (np_hanning (if x.length < np then max 16 x.length else np)))
              (if x.length < np then max 16 x.length else np) k *
              (1 / ((fs : ℝ) *
                ((np_hanning (if x.length < np then max 16 x.length else np)).map
                  (fun v => v ^ 2)).sum))) = []
    · rw [if_pos hsegs] at hv
      simp only [List.mem_replicate] at hv
      rw [hv.2]; norm_num
    · rw [if_neg hsegs] at hv
      simp only [List.mem_map] at hv
      obtain ⟨p, ⟨q, _, rfl⟩, rfl⟩ := hv
      exact neg300_le_log_clamp q

lemma welch_main_v4_psd_lb (frames : List (List ℚ)) (fs : ℕ) (np : ℕ) (w : String) :
    ∀ v ∈ (welch_main_v4 frames fs np w).2, (-300 : ℝ) ≤ v := by
  intro v hv
  unfold welch_main_v4 at hv
  simp only [List.mem_map] at hv
  obtain ⟨p, ⟨q, _, rfl⟩, rfl⟩ := hv
  exact neg300_le_log_clamp q

/-- C9: every value of the dB spectrum returned by any of the three Welch
estimators is at least −300 dB: the linear power is clamped to `≥ 1e-30`
before `10·log10`, and the degenerate sentinels (−300 dB in week5_v3 and
week5_v4, −120 dB in week4_v2) also satisfy the bound.  For week5_v4 the bound
is stated on the dB array of any non-raising call. -/
theorem C9_welch_psd_lower_bound :
    (∀ (x : List ℚ) (fs np : ℕ) (no : Option ℕ),
        ∀ v ∈ (welch_db_v3 x fs np no).2, (-300 : ℝ) ≤ v) ∧
    (∀ (x : List ℚ) (fs np : ℕ) (no : Option ℕ),
        ∀ v ∈ (welch_psd_db x fs np no).2, (-300 : ℝ) ≤ v) ∧
    (∀ (x : List ℚ) (fs np : ℕ) (w : String),
        ∀ v ∈ psd_values (welch_db_v4 x fs np w), (-300 : ℝ) ≤ v) := by
  refine ⟨welch_db_v3_psd_lb, welch_psd_db_psd_lb, ?_⟩
  intro x fs np w v hv
  unfold welch_db_v4 at hv
  dsimp only at hv
  cases hfr : frame_signal x np (np / 2) with
  | error e =>
    rw [hfr] at hv
    simp [psd_values] at hv
  | ok frames =>
    rw [hfr] at hv
    dsimp only at hv
    by_cases hz : frames.length = 0 ∨ np = 0
    · rw [if_pos hz] at hv
      simp only [psd_values, List.mem_replicate] at hv
      rw [hv.2]
    · rw [if_neg hz] at hv
      exact welch_main_v4_psd_lb frames fs np w v hv

lemma getD_zero_mem {l : List ℝ} (h : l ≠ []) : l.getD 0 0 ∈ l := by
  cases l with
  | nil => exact absurd rfl h
  | cons a t => simp [List.getD]

/-- C9 witness: concrete instances of all three bounds — the week5_v3 sentinel
on an empty input, the week4_v2 −120 dB sentinel, and the first dB bin of a
successful week5_v4 call on the one-sample signal `[1]` with `nperseg = 2`. -/
theorem C9_welch_psd_lower_bound_witness :
    ((-300 : ℝ) ∈ (welch_db_v3 [] 48000 4096 none).2 ∧ (-300 : ℝ) ≤ -300) ∧
    ((-120 : ℝ) ∈ (welch_psd_db [] 48000 4096 none).2 ∧ (-300 : ℝ) ≤ -120) ∧
    ((psd_values (welch_db_v4 [1] 1 2 "hann")).getD 0 0 ∈
        psd_values (welch_db_v4 [1] 1 2 "hann") ∧
      (-300 : ℝ) ≤ (psd_values (welch_db_v4 [1] 1 2 "hann")).getD 0 0) := by
  have h3 : (-300 : ℝ) ∈ (welch_db_v3 [] 48000 4096 none).2 := by
    simp [welch_db_v3]
  have h2 : (-120 : ℝ) ∈ (welch_psd_db [] 48000 4096 none).2 := by
    simp [welch_psd_db]
  have h4len : (psd_values (welch_db_v4 [1] 1 2 "hann")).length = 2 := by
    have hfr : frame_signal [1] 2 1 = Except.ok [[(1 : ℚ), 1]] := by rfl
    simp only [welch_db_v4, hfr]
    norm_num [psd_values, welch_main_v4, mean_rows]
  have h4mem : (psd_values (welch_db_v4 [1] 1 2 "hann")).getD 0 0 ∈
      psd_values (welch_db_v4 [1] 1 2 "hann") := by
    apply getD_zero_mem
    intro hnil
    rw [hnil] at h4len
    simp at h4len
  exact ⟨⟨h3, le_refl _⟩, ⟨h2, by norm_num⟩,
    ⟨h4mem, C9_welch_psd_lower_bound.2.2 [1] 1 2 "hann" _ h4mem⟩⟩

/-! ## C3 — degenerate inputs of the Welch estimators -/

/-- C3 (counterexample): `welch_db` (week5_v3) on the degenerate empty input
returns the flat −300 dB sentinel, not −120 dB as claimed. -/
theorem C3_counterexample :
    ([] : List ℚ).length ≤ 16 ∧
    (welch_db_v3 [] 48000 4096 none).2 = [(-300 : ℝ)] ∧ ((-300 : ℝ) ≠ -120) := by
  refine ⟨by simp, ?_, by norm_num⟩
  simp [welch_db_v3]

lemma frame_signal_short_err {x : List ℚ} (h2 : 2 ≤ x.length) (h16 : x.length ≤ 16) :
    frame_signal x 4096 2048 = Except.error broadcastMsg := by
  unfold frame_signal
  rw [if_neg (by norm_num)]
  dsimp only
  have hc1 : (((4096 - 2048 : ℕ)) : ℤ) = 2048 := by norm_num
  have hc2 : (((4096 : ℕ)) : ℤ) = 4096 := by norm_num
  have hfd : ((x.length : ℤ) - ((4096 : ℕ) : ℤ)).fdiv (((4096 - 2048 : ℕ) : ℤ)) = -2 := by
    rw [hc1, hc2, Int.fdiv_eq_ediv _ (by norm_num)]
    omega
  rw [hfd]
  have hmax : (0 : ℤ) ⊔ (-2) = 0 := max_eq_left (by norm_num)
  rw [hmax]
  rw [if_neg (by norm_num)]
  rw [show ((1 : ℤ) + 0).toNat = 1 from rfl]
  rw [show List.range 1 = [0] from rfl]
  simp only [List.mapM_cons, List.mapM_nil]
  have hlen : (List.take 4096 (List.drop (0 * (4096 - 2048)) x)).length = x.length := by
    simp only [Nat.zero_mul, List.drop_zero, List.length_take]
    omega
  rw [hlen]
  rw [if_neg (by omega), if_neg (by omega)]
  rfl

/-- C3 (amended): only `week4_v2`'s `welch_psd_db` returns the flat −120 dB
sentinel, and it does so exactly for inputs of length ≤ 16 (under the default
`nperseg = 4096`); `week5_v3`'s `welch_db` instead returns a flat −300 dB
sentinel, and only for inputs of length ≤ 1; `week5_v4`'s `welch_db` raises a
numpy broadcast `ValueError` on short inputs (length 2…16) instead of
returning any sentinel. -/
theorem C3_welch_degenerate_amended :
    (∀ (x : List ℚ) (fs : ℕ), x.length ≤ 16 →
        welch_psd_db x fs 4096 none =
          (linspace 0 ((fs : ℚ)/2) 32, List.replicate 32 (-120 : ℝ))) ∧
    (∀ (x : List ℚ) (fs : ℕ), x.length ≤ 1 →
        welch_db_v3 x fs 4096 none =
          (linspace 0 ((fs : ℚ)/2) 1, List.replicate 1 (-300 : ℝ))) ∧
    (∀ (x : List ℚ) (fs : ℕ), 2 ≤ x.length → x.length ≤ 16 →
        welch_db_v4 x fs 4096 "hann" = Except.error broadcastMsg) := by
  refine ⟨?_, ?_, ?_⟩
  · intro x fs h16
    unfold welch_psd_db
    rw [if_pos ⟨by omega, by omega⟩]
  · intro x fs h1
    unfold welch_db_v3
    rw [if_pos h1]
  · intro x fs h2 h16
    unfold welch_db_v4
    dsimp only
    rw [frame_signal_short_err h2 h16]

/-- C3 witness: the amended statement at concrete degenerate inputs (`[]` for
the two sentinels, the two-sample `[1, 2]` for the week5_v4 error). -/
theorem C3_welch_degenerate_amended_witness :
    welch_psd_db [] 48000 4096 none =
      (linspace 0 ((48000 : ℚ)/2) 32, List.replicate 32 (-120 : ℝ)) ∧
    welch_db_v3 [] 48000 4096 none =
      (linspace 0 ((48000 : ℚ)/2) 1, List.replicate 1 (-300 : ℝ)) ∧
    welch_db_v4 [1, 2] 48000 4096 "hann" = Except.error broadcastMsg :=
  ⟨C3_welch_degenerate_amended.1 [] 48000 (by simp),
   C3_welch_degenerate_amended.2.1 [] 48000 (by simp),
   C3_welch_degenerate_amended.2.2 [1, 2] 48000 (by simp) (by simp)⟩

/-! ## Metric extractor and verdict engine (`analyze_pair`) -/

/-- Numpy `np.interp(t, xp, fp)` for an ascending grid `xp`: clamp to the end values
outside the grid, linear interpolation inside (`0` on an empty grid, where
numpy raises). -/
noncomputable def np_interp (t : ℚ) : List ℚ → List ℝ → ℝ
  | [], _ => 0
  | [_], y :: _ => y
  | [_], [] => 0
  | x1 :: x2 :: xs, y1 :: y2 :: ys =>
    if t ≤ x1 then y1
    else if t ≤ x2 then y1 + (y2 - y1) * (((t - x1) / (x2 - x1) : ℚ) : ℝ)
    else np_interp t (x2 :: xs) (y2 :: ys)
  | _ :: _ :: _, _ => 0

/-- Numpy `np.percentile(a, q)` with the default linear interpolation: index
`h = (n−1)·q/100` into the sorted data, value
`s[⌊h⌋] + (s[⌈h⌉] − s[⌊h⌋])·(h − ⌊h⌋)`. -/
noncomputable def np_percentile (a : List ℝ) (q : ℚ) : ℝ :=
  let s := a.insertionSort (· ≤ ·)
  let n := s.length
  let h : ℚ := ((n : ℚ) - 1) * q / 100
  let i := (⌊h⌋).toNat
  let frac : ℚ := h - ⌊h⌋
  s.getD i 0 + (s.getD (min (i + 1) (n - 1)) 0 - s.getD i 0) * ((frac : ℚ) : ℝ)

/-- The fixed band table, in insertion order: LFE, LF, MF, HF. -/
def BANDS : List (ℚ × ℚ) := [(30, 100), (30, 120), (120, 2000), (2000, 8000)]

/-- Embeds `week5_v4/week5_v3 analyzer.band_energy_db`: average the linear power
`10^(dB/10)` of the bins inside `[f1, f2]` and convert back to dB; `−120`
sentinel when no bin falls inside. -/
noncomputable def band_energy_db (f : List ℚ) (psd_db : List ℝ) (band : ℚ × ℚ) : ℝ :=
  let sel := ((f.zip psd_db).filter (fun p => decide (band.1 ≤ p.1 ∧ p.1 ≤ band.2))).map
    (fun p => p.2)
  if sel = [] then -120
  else
    let p_lin := sel.map (fun v => (10 : ℝ) ^ (v / 10))
    10 * Real.logb 10 (meanR p_lin + 1/10^30)

/-- Embeds `week5_v4/week5_v3 analyzer.relative_spectrum_db`: interpolate the current
spectrum onto the reference grid and subtract the reference pointwise. -/
noncomputable def relative_spectrum_db (f_ref : List ℚ) (psd_ref_db : List ℝ)
    (f_x : List ℚ) (psd_x_db : List ℝ) : List ℚ × List ℝ :=
  let psd_x_i := f_ref.map (fun t => np_interp t f_x psd_x_db)
  (f_ref, List.zipWith (fun a b => a - b) psd_x_i psd_ref_db)

/-- Verdict string of a passing comparison. -/
def PASSED : String := "PASSED"

/-- Verdict string of a failing comparison. -/
def FAILED : String := "FAILED"

lemma PASSED_ne_FAILED : PASSED ≠ FAILED := by simp [PASSED, FAILED]

/-- The result dictionary of `analyze_pair` (band maps in `BANDS` order). -/
structure AnalyzeResult where
  fs : ℕ
  rms_ref : ℝ
  rms_cur : ℝ
  crest_ref : ℝ
  crest_cur : ℝ
  diff_rms : ℝ
  diff_crest : ℝ
  bands_ref : List ℝ
  bands_cur : List ℝ
  diff_bands : List ℝ
  f_ref : List ℚ
  psd_ref_db : List ℝ
  f_cur : List ℚ
  psd_cur_db : List ℝ
  f_rel : List ℚ
  rel_db : List ℝ
  spec_dev95 : ℝ
  dead_channel : Bool
  overall : String

open scoped Classical in
/-- Embeds `week5_v4/week5_v3 analyzer.analyze_pair` (the two versions share this body
line for line).  The PSD estimator is the `welchF` parameter, since it is the
only piece where the two versions bind different functions (`welch_db` of the
respective file); everything downstream — relative spectrum, band energies,
metric differences, the `dead_channel` test, `spec_dev95` and the five-predicate
verdict — is embedded concretely. -/
noncomputable def analyze_pair (welchF : List ℚ → ℕ → List ℚ × List ℝ)
    (x_ref x_cur : List ℚ) (fs : ℕ) : AnalyzeResult :=
  let rms_ref := rms_db x_ref
  let rms_cur := rms_db x_cur
  let crest_ref := crest_factor_db x_ref
  let crest_cur := crest_factor_db x_cur
  let wr := welchF x_ref fs
  let wc := welchF x_cur fs
  let rel := relative_spectrum_db wr.1 wr.2 wc.1 wc.2
  let bands_ref := BANDS.map (band_energy_db wr.1 wr.2)
  let bands_cur := BANDS.map (band_energy_db wc.1 wc.2)
  let diff_rms := rms_cur - rms_ref
  let diff_crest := crest_cur - crest_ref
  let diff_bands := List.zipWith (fun c r => c - r) bands_cur bands_ref
  let dead_channel := rms_cur < rms_ref - 10
  let rel_abs :=
    if (rel.1.filter (fun fq => decide (50 ≤ fq ∧ fq ≤ 8000))) ≠ [] then
      ((rel.1.zip rel.2).filter (fun p => decide (50 ≤ p.1 ∧ p.1 ≤ 8000))).map (fun p => |p.2|)
    else rel.2.map (fun v => |v|)
  let spec_dev95 := if rel_abs.length ≠ 0 then np_percentile rel_abs 95 else 0
  let band_fail := ∃ v ∈ diff_bands, 6 < |v|
  let crest_fail := 4 < |diff_crest|
  let spec_fail := 12 < spec_dev95
  let rms_fail := diff_rms < -10
  let any_fail := dead_channel ∨ band_fail ∨ crest_fail ∨ spec_fail ∨ rms_fail
  { fs := fs
    rms_ref := rms_ref, rms_cur := rms_cur
    crest_ref := crest_ref, crest_cur := crest_cur
    diff_rms := diff_rms, diff_crest := diff_crest
    bands_ref := bands_ref, bands_cur := bands_cur, diff_bands := diff_bands
    f_ref := wr.1, psd_ref_db := wr.2
    f_cur := wc.1, psd_cur_db := wc.2
    f_rel := rel.1, rel_db := rel.2
    spec_dev95 := spec_dev95
    dead_channel := decide dead_channel
    overall := if ¬ any_fail then PASSED else FAILED }

/-! ## C1 — the verdict is exactly the five-predicate disjunction -/

/-- C1: for every PSD estimator and every pair of input signals, `analyze_pair`
returns the overall verdict `FAILED` iff at least one of the five failure
predicates holds of the returned metrics — `dead_channel`, some band difference
with `|·| > 6 dB`, `|diff_crest| > 4 dB`, `spec_dev95 > 12 dB`, or
`diff_rms < −10 dB` — and `PASSED` otherwise. -/
lemma verdict_string_iff (A : Prop) [Decidable A] :
    ((if ¬ A then PASSED else FAILED) = FAILED ↔ A) ∧
    ((if ¬ A then PASSED else FAILED) = FAILED ∨
      (if ¬ A then PASSED else FAILED) = PASSED) := by
  by_cases h : A
  · rw [if_neg (not_not_intro h)]
    exact ⟨⟨fun _ => h, fun _ => rfl⟩, Or.inl rfl⟩
  · rw [if_pos h]
    exact ⟨⟨fun hf => absurd hf PASSED_ne_FAILED, fun ha => absurd ha h⟩, Or.inr rfl⟩

theorem C1_overall_iff_any_fail (welchF : List ℚ → ℕ → List ℚ × List ℝ)
    (x_ref x_cur : List ℚ) (fs : ℕ) :
    ((analyze_pair welchF x_ref x_cur fs).overall = FAILED ↔
      ((analyze_pair welchF x_ref x_cur fs).dead_channel = true ∨
       (∃ v ∈ (analyze_pair welchF x_ref x_cur fs).diff_bands, 6 < |v|) ∨
       4 < |(analyze_pair welchF x_ref x_cur fs).diff_crest| ∨
       12 < (analyze_pair welchF x_ref x_cur fs).spec_dev95 ∨
       (analyze_pair welchF x_ref x_cur fs).diff_rms < -10)) ∧
    ((analyze_pair welchF x_ref x_cur fs).overall = FAILED ∨
      (analyze_pair welchF x_ref x_cur fs).overall = PASSED) := by
  unfold analyze_pair
  dsimp only
  rw [decide_eq_true_iff]
  exact verdict_string_iff _

/-! ## C8 — `dead_channel` coincides with the RMS failure predicate -/

/-- C8: in `analyze_pair`, the `dead_channel` flag
(`rms_cur < rms_ref − 10`) holds exactly when `diff_rms = rms_cur − rms_ref`
is below −10 dB, for every estimator and every pair of inputs — in exact
arithmetic the separate `rms_fail` predicate is redundant. -/
theorem C8_dead_channel_iff_rms_fail (welchF : List ℚ → ℕ → List ℚ × List ℝ)
    (x_ref x_cur : List ℚ) (fs : ℕ) :
    ((analyze_pair welchF x_ref x_cur fs).dead_channel = true) ↔
      (analyze_pair welchF x_ref x_cur fs).diff_rms < -10 := by
  unfold analyze_pair
  dsimp only
  rw [decide_eq_true_iff]
  constructor <;> intro h <;> linarith

/-! ## C7 — analysing an identical pair -/

lemma getD_all_zero {l : List ℝ} (h : ∀ v ∈ l, v = 0) (i : ℕ) : l.getD i 0 = 0 := by
  rw [List.getD_eq_getElem?_getD]
  cases hg : l[i]? with
  | none => rfl
  | some v => simpa using h v (List.getElem?_mem hg)

lemma np_percentile_zeros {a : List ℝ} (h : ∀ v ∈ a, v = 0) (q : ℚ) :
    np_percentile a q = 0 := by
  unfold np_percentile
  dsimp only
  have hs : ∀ v ∈ a.insertionSort (· ≤ ·), v = 0 := fun v hv =>
    h v ((List.mem_insertionSort _).1 hv)
  rw [getD_all_zero hs, getD_all_zero hs]
  ring

lemma zipWith_sub_self_mem {l : List ℝ} :
    ∀ v ∈ List.zipWith (fun a b => a - b) l l, v = 0 := by
  induction l with
  | nil => intro v hv; cases hv
  | cons a t ih =>
    intro v hv
    rcases List.mem_cons.1 hv with h | h
    · rw [h]; exact sub_self a
    · exact ih v h

lemma np_interp_le_head : ∀ (xs : List ℚ) (ys : List ℝ) (t x0 : ℚ) (y0 : ℝ),
    xs.length = ys.length → t ≤ x0 → np_interp t (x0 :: xs) (y0 :: ys) = y0 := by
  intro xs ys t x0 y0 hlen hle
  cases xs with
  | nil =>
    cases ys with
    | nil => rfl
    | cons b bs => simp at hlen
  | cons x1 xs' =>
    cases ys with
    | nil => simp at hlen
    | cons y1 ys' =>
      unfold np_interp
      rw [if_pos hle]

lemma np_interp_self :
    ∀ (xs : List ℚ) (ys : List ℝ), List.Chain' (· < ·) xs → xs.length = ys.length →
      xs.map (fun t => np_interp t xs ys) = ys := by
  intro xs
  induction xs with
  | nil =>
    intro ys _ hlen
    cases ys with
    | nil => rfl
    | cons y ys' => simp at hlen
  | cons x1 xs' ih =>
    cases xs' with
    | nil =>
      intro ys hch hlen
      cases ys with
      | nil => simp at hlen
      | cons y1 ys' =>
        cases ys' with
        | nil => simp [np_interp]
        | cons y2 ys'' => simp at hlen
    | cons x2 xs'' =>
      intro ys hch hlen
      cases ys with
      | nil => simp at hlen
      | cons y1 ys' =>
        cases ys' with
        | nil => simp at hlen
        | cons y2 ys'' =>
          have hlen' : (x2 :: xs'').length = (y2 :: ys'').length := by
            simpa using hlen
          have hch' : List.Chain' (· < ·) (x2 :: xs'') := (List.chain'_cons.1 hch).2
          have hx12 : x1 < x2 := (List.chain'_cons.1 hch).1
          have hlt : ∀ t ∈ x2 :: xs'', x1 < t := by
            have hpw := List.chain'_iff_pairwise.1 hch
            exact (List.pairwise_cons.1 hpw).1
          have hstep : ∀ t ∈ x2 :: xs'',
              np_interp t (x1 :: x2 :: xs'') (y1 :: y2 :: ys'') =
                np_interp t (x2 :: xs'') (y2 :: ys'') := by
            intro t ht
            have hx1t : x1 < t := hlt t ht
            show (if t ≤ x1 then y1
                  else if t ≤ x2 then y1 + (y2 - y1) * (((t - x1) / (x2 - x1) : ℚ) : ℝ)
                  else np_interp t (x2 :: xs'') (y2 :: ys'')) =
                np_interp t (x2 :: xs'') (y2 :: ys'')
            rw [if_neg (not_le.2 hx1t)]
            by_cases h2 : t ≤ x2
            · rw [if_pos h2]
              have ht2 : t = x2 := by
                rcases List.mem_cons.1 ht with h | h
                · exact h
                · have := List.chain'_iff_pairwise.1 hch'
                  have hx2t : x2 < t := (List.pairwise_cons.1 this).1 t h
                  linarith
              subst ht2
              rw [np_interp_le_head xs'' ys'' t t y2 (by simpa using hlen') (le_refl t)]
              have hne : (t - x1 : ℚ) ≠ 0 := sub_ne_zero.2 (ne_of_gt hx1t)
              rw [div_self hne]
              push_cast
              ring
            · rw [if_neg h2]
          calc (x1 :: x2 :: xs'').map (fun t => np_interp t (x1 :: x2 :: xs'') (y1 :: y2 :: ys''))
              = np_interp x1 (x1 :: x2 :: xs'') (y1 :: y2 :: ys'') ::
                (x2 :: xs'').map (fun t => np_interp t (x1 :: x2 :: xs'') (y1 :: y2 :: ys'')) := by
                rw [List.map_cons]
            _ = y1 :: (x2 :: xs'').map (fun t => np_interp t (x2 :: xs'') (y2 :: ys'')) := by
                rw [np_interp_le_head (x2 :: xs'') (y2 :: ys'') x1 x1 y1 hlen' (le_refl x1)]
                rw [List.map_congr_left hstep]
            _ = y1 :: y2 :: ys'' := by rw [ih (y2 :: ys'') hch' hlen']

lemma rfftfreq_chain (n fs : ℕ) (hfs : 0 < fs) (hn : 0 < n) :
    List.Chain' (· < ·) (rfftfreq n fs) := by
  unfold rfftfreq
  refine (List.chain'_map _).2 ?_
  rw [List.chain'_range_succ]
  intro m _
  have hfsQ : (0 : ℚ) < fs := by exact_mod_cast hfs
  have hnQ : (0 : ℚ) < n := by exact_mod_cast hn
  rw [div_lt_div_iff_of_pos_right hnQ]
  push_cast
  nlinarith

lemma welch_db_v3_axis_chain (x : List ℚ) (fs np : ℕ) (no : Option ℕ) (hfs : 0 < fs) :
    List.Chain' (· < ·) (welch_db_v3 x fs np no).1 := by
  unfold welch_db_v3
  by_cases hn : x.length ≤ 1
  · rw [if_pos hn]
    have hl : linspace 0 ((fs : ℚ)/2) 1 = [0] := by
      unfold linspace
      rw [show List.range 1 = [0] from rfl]
      simp only [List.map_cons, List.map_nil]
      norm_num
    dsimp only
    rw [hl]
    exact List.chain'_singleton 0
  · rw [if_neg hn]
    dsimp only
    apply rfftfreq_chain _ _ hfs
    have h2 : 2 ≤ x.length := by omega
    have : 0 < max 256 np := by omega
    exact lt_min this (by omega)

lemma welch_db_v3_len_eq (x : List ℚ) (fs np : ℕ) (no : Option ℕ) :
    (welch_db_v3 x fs np no).1.length = (welch_db_v3 x fs np no).2.length := by
  unfold welch_db_v3
  by_cases hn : x.length ≤ 1
  · rw [if_pos hn]
    simp only [linspace, List.length_map, List.length_range, List.length_replicate]
  · rw [if_neg hn]
    simp only [rfftfreq, mean_rows, List.length_map, List.length_range]

open scoped Classical in
lemma analyze_pair_self (welchF : List ℚ → ℕ → List ℚ × List ℝ) (x : List ℚ) (fs : ℕ)
    (hax : List.Chain' (· < ·) (welchF x fs).1)
    (hlen : (welchF x fs).1.length = (welchF x fs).2.length) :
    (analyze_pair welchF x x fs).diff_rms = 0 ∧
    (analyze_pair welchF x x fs).diff_crest = 0 ∧
    (∀ v ∈ (analyze_pair welchF x x fs).diff_bands, v = 0) ∧
    (analyze_pair welchF x x fs).spec_dev95 = 0 ∧
    (analyze_pair welchF x x fs).dead_channel = false ∧
    (analyze_pair welchF x x fs).overall = PASSED := by
  unfold analyze_pair relative_spectrum_db
  dsimp only
  rw [np_interp_self _ _ hax hlen]
  have hband : ∀ v ∈ List.zipWith (fun c r => c - r)
      (BANDS.map (band_energy_db (welchF x fs).1 (welchF x fs).2))
      (BANDS.map (band_energy_db (welchF x fs).1 (welchF x fs).2)), v = 0 :=
    zipWith_sub_self_mem
  have hrel0 : ∀ v ∈ List.zipWith (fun a b => a - b) (welchF x fs).2 (welchF x fs).2, v = 0 :=
    zipWith_sub_self_mem
  have habs1 : ∀ v ∈ (((welchF x fs).1.zip
      (List.zipWith (fun a b => a - b) (welchF x fs).2 (welchF x fs).2)).filter
        (fun p => decide (50 ≤ p.1 ∧ p.1 ≤ 8000))).map (fun p => |p.2|), v = 0 := by
    intro v hv
    rcases List.mem_map.1 hv with ⟨p, hp, rfl⟩
    have := (List.of_mem_zip (List.mem_filter.1 hp).1).2
    rw [hrel0 p.2 this, abs_zero]
  have habs2 : ∀ v ∈ (List.zipWith (fun a b => a - b) (welchF x fs).2 (welchF x fs).2).map
      (fun v => |v|), v = 0 := by
    intro v hv
    rcases List.mem_map.1 hv with ⟨u, hu, rfl⟩
    rw [hrel0 u hu, abs_zero]
  have hspec : (if ((if ((welchF x fs).1.filter (fun fq => decide (50 ≤ fq ∧ fq ≤ 8000))) ≠ []
        then (((welchF x fs).1.zip
            (List.zipWith (fun a b => a - b) (welchF x fs).2 (welchF x fs).2)).filter
              (fun p => decide (50 ≤ p.1 ∧ p.1 ≤ 8000))).map (fun p => |p.2|)
        else (List.zipWith (fun a b => a - b) (welchF x fs).2 (welchF x fs).2).map
          (fun v => |v|))).length ≠ 0
      then np_percentile
        (if ((welchF x fs).1.filter (fun fq => decide (50 ≤ fq ∧ fq ≤ 8000))) ≠ []
        then (((welchF x fs).1.zip
            (List.zipWith (fun a b => a - b) (welchF x fs).2 (welchF x fs).2)).filter
              (fun p => decide (50 ≤ p.1 ∧ p.1 ≤ 8000))).map (fun p => |p.2|)
        else (List.zipWith (fun a b => a - b) (welchF x fs).2 (welchF x fs).2).map
          (fun v => |v|)) 95
      else 0) = 0 := by
    split
    · split
      · exact np_percentile_zeros habs1 95
      · rfl
    · split
      · exact np_percentile_zeros habs2 95
      · rfl
  refine ⟨sub_self _, sub_self _, hband, ?_, ?_, ?_⟩
  · exact hspec
  · rw [decide_eq_false_iff_not]
    intro hc
    linarith
  · rw [if_pos]
    intro hfail
    rcases hfail with h | h | h | h | h
    · linarith
    · rcases h with ⟨v, hv, h6⟩
      rw [hband v hv, abs_zero] at h6
      linarith
    · rw [sub_self, abs_zero] at h
      linarith
    · rw [hspec] at h
      linarith
    · rw [sub_self] at h
      linarith

/-- C7: analysing an identical pair with the week5_v3 Welch estimator (the
analyze_pair body is shared by week5_v3/v4) yields exactly zero metric
differences, `spec_dev95 = 0`, no dead channel, and the verdict `PASSED` — in
particular all differences are within the claimed `1e-6` tolerance. -/
theorem C7_identical_pair (x : List ℚ) (fs : ℕ) (hfs : 0 < fs) :
    (analyze_pair (fun s f => welch_db_v3 s f 4096 none) x x fs).diff_rms = 0 ∧
    (analyze_pair (fun s f => welch_db_v3 s f 4096 none) x x fs).diff_crest = 0 ∧
    (∀ v ∈ (analyze_pair (fun s f => welch_db_v3 s f 4096 none) x x fs).diff_bands, v = 0) ∧
    (analyze_pair (fun s f => welch_db_v3 s f 4096 none) x x fs).spec_dev95 = 0 ∧
    (analyze_pair (fun s f => welch_db_v3 s f 4096 none) x x fs).dead_channel = false ∧
    (analyze_pair (fun s f => welch_db_v3 s f 4096 none) x x fs).overall = PASSED :=
  analyze_pair_self _ x fs (welch_db_v3_axis_chain x fs 4096 none hfs)
    (welch_db_v3_len_eq x fs 4096 none)

/-- C7 witness: the identical-pair analysis of the concrete signal `[1, 1/2]`
at 48 kHz passes with all differences exactly zero. -/
theorem C7_identical_pair_witness :
    0 < (48000 : ℕ) ∧
    (analyze_pair (fun s f => welch_db_v3 s f 4096 none) [1, 1/2] [1, 1/2] 48000).diff_rms = 0 ∧
    (analyze_pair (fun s f => welch_db_v3 s f 4096 none) [1, 1/2] [1, 1/2] 48000).overall
      = PASSED := by
  have h := C7_identical_pair [1, 1/2] 48000 (by decide)
  exact ⟨by decide, h.1, h.2.2.2.2.2⟩

end AudioCinema
